import Mathlib

/-!
# Verification of the `packagemanager` core (arduino-cli)

A shallow embedding of `cores/packagemanager/package_manager.go` and of the
pieces of the `cores` data model it uses, together with proofs of the spec
claims about it.

Go maps are embedded as Lean lists iterated in list order (one fixed
realization of the Go unordered map iteration); Go `(T, error)` pairs become
`Option T × Option String` or `Except String T`; a nil pointer becomes
`none`.
-/

set_option autoImplicit false

namespace PkgMgr

/-- Single-quote character, used to build error messages verbatim. -/
def sq : String := String.singleton (Char.ofNat 39)

/-- A platform-declared exact tool requirement (`cores.ToolDependency`). -/
structure ToolDependency where
  toolPackager : String
  toolName : String
  toolVersion : String
deriving DecidableEq, Repr

/-- One installable version of a tool (`cores.ToolRelease`).  The Go value
carries a back-pointer `Tool` to its owning tool; we embed that back-pointer
as the identity pair `(packager, toolName)` it denotes. -/
structure ToolRelease where
  version : String
  installed : Bool
  packager : String
  toolName : String
deriving DecidableEq, Repr

/-- `cores.Tool.String()`: the "PACKAGER:TOOL" identity string, as used to key
the tool map in `FindToolsRequiredForBoard`. -/
def ToolRelease.idString (r : ToolRelease) : String :=
  r.packager ++ ":" ++ r.toolName

/-- A named toolchain component (`cores.Tool`); owns its releases, keyed by
version string. -/
structure Tool where
  name : String
  packager : String
  releases : List ToolRelease
deriving DecidableEq, Repr

/-- Modelled from the spec: `cores.Tool.GetRelease` is not under `src/`;
the data model says a Tool "owns a mapping of ToolRelease keyed by version
string", so this is lookup of the exact version among all releases. -/
def Tool.GetRelease (t : Tool) (version : String) : Option ToolRelease :=
  t.releases.find? (fun r => r.version == version)

/-- Strict lexicographic order on character lists, comparing code points. -/
def charListLt : List Char → List Char → Bool
  | [], [] => false
  | [], _ :: _ => true
  | _ :: _, [] => false
  | a :: as, b :: bs =>
    if a.toNat < b.toNat then true
    else if b.toNat < a.toNat then false
    else charListLt as bs

/-- Strict lexicographic order on version strings. -/
def versionLt (a b : String) : Bool := charListLt a.data b.data

/-- Modelled from the spec: `cores.Tool.GetLatestInstalled` is not under
`src/`; the spec says "select its latest installed release (highest version
among installed releases for that tool)" with the exact total order on
version strings left to the implementer to pin; we pin it to the
lexicographic string order `versionLt`. -/
def Tool.GetLatestInstalled (t : Tool) : Option ToolRelease :=
  (t.releases.filter (fun r => r.installed)).foldl
    (fun acc r =>
      match acc with
      | none => some r
      | some a => if versionLt a.version r.version then some r else some a)
    none

/-- Modelled from the spec: `cores.Tool.String()` is not under `src/`; the
spec names tool identity as the "packager:tool" pair. -/
def Tool.toIdString (t : Tool) : String :=
  t.packager ++ ":" ++ t.name

/-- A buildable target definition (`cores.Board`), as stored inside a
platform release: its identifier. -/
structure BoardData where
  boardId : String
deriving DecidableEq, Repr

/-- One versioned release of a platform (`cores.PlatformRelease`): installed
flag, owned boards, and declared tool dependencies. -/
structure PlatformRelease where
  installed : Bool
  boards : List BoardData
  dependencies : List ToolDependency
deriving DecidableEq, Repr

/-- A resolved board (`cores.Board` with its `PlatformRelease` back-pointer),
as returned by board lookup and consumed by the dependency resolver. -/
structure Board where
  data : BoardData
  platformRelease : PlatformRelease
deriving DecidableEq, Repr

/-- An architecture-specific board family within a package
(`cores.Platform`), with its set of versioned releases. -/
structure Platform where
  architecture : String
  releases : List PlatformRelease
deriving DecidableEq, Repr

/-- Modelled from the spec: `cores.Platform.GetInstalled` is not under
`src/`; the spec says a platform has "at most one release marked installed",
and `GetInstalled` returns it (or nil). -/
def Platform.GetInstalled (p : Platform) : Option PlatformRelease :=
  p.releases.find? (fun r => r.installed)

/-- A vendor package (`cores.Package`): platforms and tools. -/
structure Package where
  name : String
  platforms : List Platform
  tools : List Tool
deriving DecidableEq, Repr

/-- The registered event sink.  The Go `EventHandler` interface only matters
to the claims through presence/absence, so its payload is trivial. -/
abbrev EventHandler := Unit

/-- The package registry plus the at-most-one registered event handler
(`PackageManager`). -/
structure PackageManager where
  packages : List Package
  eventHandler : Option EventHandler
deriving DecidableEq, Repr

/-- `cores.NewPackages()`: the empty package collection. -/
def NewPackages : List Package := []

/-- `NewPackageManager()`. -/
def NewPackageManager : PackageManager :=
  { packages := NewPackages, eventHandler := none }

/-- `PackageManager.Clear`: replaces the package collection with a fresh one;
the event-handler field is untouched by the Go code. -/
def PackageManager.Clear (pm : PackageManager) : PackageManager :=
  { pm with packages := NewPackages }

/-- `PackageManager.GetPackages`. -/
def PackageManager.GetPackages (pm : PackageManager) : List Package :=
  pm.packages

/-! ## Board lookup by FQBN -/

/-- Character-level split on a separator character; `splitColon` below wraps
it.  For a one-character separator this is exactly the semantics of the Go
`strings.Split`: n separators yield n+1 (possibly empty) segments, and the
empty string yields `[""]`. -/
def splitCh (sep : Char) : List Char → List String
  | [] => [""]
  | c :: cs =>
    if c = sep then "" :: splitCh sep cs
    else
      match splitCh sep cs with
      | [] => [String.singleton c]
      | s :: ss => (String.singleton c ++ s) :: ss

/-- Embedding of `strings.Split(s, ":")` as used on the fqbn. -/
def splitColon (s : String) : List String := splitCh ':' s.data

/-- The inner platform loop of `FindBoardWithFQBN`: skip platforms whose
architecture differs; on a match, fail hard if no release is installed, else
return the board when found, else keep scanning.  `none` means the loop fell
through without returning. -/
def searchPlatforms (platformArch boardID : String) :
    List Platform → Option (Except String Board)
  | [] => none
  | p :: ps =>
    if p.architecture == platformArch then
      match p.GetInstalled with
      | none => some (Except.error "platform not installed")
      | some rel =>
        match rel.boards.find? (fun b => b.boardId == boardID) with
        | some b => some (Except.ok { data := b, platformRelease := rel })
        | none => searchPlatforms platformArch boardID ps
    else searchPlatforms platformArch boardID ps

/-- The outer package loop of `FindBoardWithFQBN`: skip packages whose name
differs, and run the platform loop on the matching ones. -/
def searchPackages (packageName platformArch boardID : String) :
    List Package → Option (Except String Board)
  | [] => none
  | pkg :: pkgs =>
    if pkg.name == packageName then
      match searchPlatforms platformArch boardID pkg.platforms with
      | some r => some r
      | none => searchPackages packageName platformArch boardID pkgs
    else searchPackages packageName platformArch boardID pkgs

/-- `PackageManager.FindBoardWithFQBN`: split the fqbn on `:`, require 3 or 4
segments, then scan packages (the stray `fmt.Println` in the loop is pure
output and is not modelled). -/
def PackageManager.FindBoardWithFQBN (pm : PackageManager) (fqbn : String) :
    Except String Board :=
  if (splitColon fqbn).length < 3 ∨ (splitColon fqbn).length > 4 then
    Except.error "incorrect format for fqbn"
  else
    match searchPackages ((splitColon fqbn).getD 0 "")
        ((splitColon fqbn).getD 1 "") ((splitColon fqbn).getD 2 "")
        pm.packages with
    | some r => r
    | none => Except.error "board not found"

/-! ## Event notification -/

/-- Outcome of `RegisterEventHandler`: the Go function either records the
handler or `panic`s when one is already registered. -/
inductive RegisterResult where
  | ok (pm : PackageManager)
  | panicked (msg : String)
deriving DecidableEq, Repr

/-- `PackageManager.RegisterEventHandler`: panics if a handler is already
registered, otherwise stores the handler. -/
def PackageManager.RegisterEventHandler (pm : PackageManager)
    (eventHandler : EventHandler) : RegisterResult :=
  match pm.eventHandler with
  | some _ =>
    RegisterResult.panicked
      ("Don" ++ sq ++ "t try to register another event handler to the PackageManager yet!")
  | none => RegisterResult.ok { pm with eventHandler := some eventHandler }

/-- `PackageManager.GetEventHandlers`: a one-element slice holding a pointer
to the (possibly nil) handler field, unconditionally. -/
def PackageManager.GetEventHandlers (pm : PackageManager) :
    List (Option EventHandler) :=
  [pm.eventHandler]

/-! ## The fluent resolution chain -/

/-- Status container for the fluent API on a `Package` (`packageActions`). -/
structure packageActions where
  aPackage : Option Package
  forwardError : Option String
deriving DecidableEq, Repr

/-- Status container for the fluent API on a `Tool` (`toolActions`). -/
structure toolActions where
  tool : Option Tool
  forwardError : Option String
deriving DecidableEq, Repr

/-- Status container for the fluent API on a `ToolRelease`
(`toolReleaseActions`). -/
structure toolReleaseActions where
  release : Option ToolRelease
  forwardError : Option String
deriving DecidableEq, Repr

/-- `PackageManager.Package`: map lookup by name, latching a
a "package ... not found" error when absent. -/
def PackageManager.Package (pm : PackageManager) (name : String) :
    packageActions :=
  match pm.packages.find? (fun p => p.name == name) with
  | some thePackage => { aPackage := some thePackage, forwardError := none }
  | none =>
    { aPackage := none
      forwardError := some ("package " ++ sq ++ name ++ sq ++ " not found") }

/-- `packageActions.Tool`: forwards a latched error unchanged; otherwise map
lookup by tool name inside the package. -/
def packageActions.Tool (pa : packageActions) (name : String) : toolActions :=
  match pa.forwardError with
  | some err => { tool := none, forwardError := some err }
  | none =>
    match pa.aPackage with
    | none => { tool := none, forwardError := none }
    | some pkg =>
      match pkg.tools.find? (fun t => t.name == name) with
      | some tool => { tool := some tool, forwardError := none }
      | none =>
        { tool := none
          forwardError :=
            some ("tool " ++ sq ++ name ++ sq ++ " not found in package "
              ++ sq ++ pkg.name ++ sq) }

/-- `toolActions.Get`: `(tool, nil)` when no error is latched, else
`(nil, err)`. -/
def toolActions.Get (ta : toolActions) : Option Tool × Option String :=
  match ta.forwardError with
  | none => (ta.tool, none)
  | some err => (none, some err)

/-- `toolActions.IsInstalled`: propagates a latched error as `(false, err)`;
otherwise reports whether any release of the tool is installed.  (The Go
code dereferences `ta.tool`, which construction guarantees is non-nil when
no error is latched; a nil tool here reads as no releases.) -/
def toolActions.IsInstalled (ta : toolActions) : Bool × Option String :=
  match ta.forwardError with
  | some err => (false, some err)
  | none =>
    ((ta.tool.map (fun t => t.releases.any (fun r => r.installed))).getD false,
      none)

/-- `toolActions.Release`: forwards a latched error; otherwise exact-version
lookup, latching "release v not found for tool p:t" when absent. -/
def toolActions.Release (ta : toolActions) (version : String) :
    toolReleaseActions :=
  match ta.forwardError with
  | some err => { release := none, forwardError := some err }
  | none =>
    match ta.tool with
    | none => { release := none, forwardError := none }
    | some tool =>
      match tool.GetRelease version with
      | some release => { release := some release, forwardError := none }
      | none =>
        { release := none
          forwardError :=
            some ("release " ++ version ++ " not found for tool "
              ++ tool.toIdString) }

/-- `toolReleaseActions.Get`. -/
def toolReleaseActions.Get (tr : toolReleaseActions) :
    Option ToolRelease × Option String :=
  match tr.forwardError with
  | some err => (none, some err)
  | none => (tr.release, none)

/-- Modelled from the spec: the source file gives `toolActions` and
`toolReleaseActions` a terminal `Get`, but defines no `Get` on
`packageActions`; the resolution-chain contract of the spec gives every handle a
terminal `get()` returning (entity, nil) on success or (nil, error) on
failure. -/
def packageActions.Get (pa : packageActions) :
    Option Package × Option String :=
  match pa.forwardError with
  | some err => (none, some err)
  | none => (pa.aPackage, none)

/-! ## Tool dependency resolution -/

/-- Go map update, on the association-list embedding of
`map[string]*cores.ToolRelease`: replace the entry at the key when present,
append otherwise. -/
def updAssoc : List (String × ToolRelease) → String → ToolRelease →
    List (String × ToolRelease)
  | [], k, v => [(k, v)]
  | e :: es, k, v => if e.1 == k then (k, v) :: es else e :: updAssoc es k v

/-- Go map lookup on the association-list embedding. -/
def lookupA (m : List (String × ToolRelease)) (k : String) :
    Option ToolRelease :=
  (m.find? (fun e => e.1 == k)).map Prod.snd

/-- One step of the first pass of `FindToolsRequiredForBoard`: record the
latest installed release of the tool (when there is one) under its
"PACKAGER:TOOL" key. -/
def addToolRelease (m : List (String × ToolRelease)) (tool : Tool) :
    List (String × ToolRelease) :=
  match tool.GetLatestInstalled with
  | some rel => updAssoc m rel.idString rel
  | none => m

/-- The first pass of `FindToolsRequiredForBoard`: for every tool of every
package, record its latest installed release under its "PACKAGER:TOOL" key. -/
def defaultToolsMap (pm : PackageManager) : List (String × ToolRelease) :=
  pm.packages.foldl
    (fun m targetPackage => targetPackage.tools.foldl addToolRelease m)
    []

/-- All tools of all packages of the registry, in iteration order: the
sequence of tools visited by the nested package/tool loops of the first pass
of `FindToolsRequiredForBoard`. -/
def allTools (pm : PackageManager) : List Tool :=
  pm.packages.foldr (fun p acc => p.tools ++ acc) []

/-- `PackageManager.FindToolDependency`: resolve the exact
(packager, tool, version) through the fluent chain; nil on any chain
error. -/
def PackageManager.FindToolDependency (pm : PackageManager)
    (dep : ToolDependency) : Option ToolRelease :=
  match (((pm.Package dep.toolPackager).Tool dep.toolName).Release
      dep.toolVersion).Get with
  | (toolRelease, none) => toolRelease
  | (_, some _) => none

/-- Modelled from the spec: `cores.ToolDependency.String()` is not under
`src/`; the spec requires the dependency-resolution error to name the
unresolved dependency, so the rendering carries all three fields. -/
def ToolDependency.toStr (d : ToolDependency) : String :=
  d.toolPackager ++ ":" ++ d.toolName ++ "@" ++ d.toolVersion

/-- The second pass of `FindToolsRequiredForBoard`: overlay the declared
dependencies onto the default map, failing on the first dependency the chain
cannot resolve. -/
def resolveDependencies (pm : PackageManager) :
    List ToolDependency → List (String × ToolRelease) →
    Except String (List (String × ToolRelease))
  | [], m => Except.ok m
  | toolDep :: deps, m =>
    match pm.FindToolDependency toolDep with
    | none => Except.error ("tool release not found: " ++ toolDep.toStr)
    | some tool => resolveDependencies pm deps (updAssoc m tool.idString tool)

/-- `PackageManager.FindToolsRequiredForBoard`: defaults pass, overlay pass,
then the values of the merged map (in map order); `(nil, err)` on failure. -/
def PackageManager.FindToolsRequiredForBoard (pm : PackageManager)
    (board : Board) : Except String (List ToolRelease) :=
  match resolveDependencies pm board.platformRelease.dependencies
      (defaultToolsMap pm) with
  | Except.error e => Except.error e
  | Except.ok m => Except.ok (m.map Prod.snd)

/-- The result list of a successful `FindToolsRequiredForBoard` call, `[]`
on failure (used to state membership conclusions without an existential). -/
def okList : Except String (List ToolRelease) → List ToolRelease
  | Except.ok l => l
  | Except.error _ => []

/-- Whether an `Except` result is a success. -/
def exceptOk : Except String (List ToolRelease) → Bool
  | Except.ok _ => true
  | Except.error _ => false

/-! ## Concrete fixtures for witnesses and counterexamples -/

/-- Tool a, release 1.0.0, installed. -/
def relA1 : ToolRelease :=
  { version := "1.0.0", installed := true, packager := "pkg", toolName := "a" }

/-- Tool a, release 2.0.0, installed (the latest installed one). -/
def relA2 : ToolRelease :=
  { version := "2.0.0", installed := true, packager := "pkg", toolName := "a" }

/-- Tool b, release 1.0.0, installed (its only release). -/
def relB1 : ToolRelease :=
  { version := "1.0.0", installed := true, packager := "pkg", toolName := "b" }

/-- Tool a with two installed releases. -/
def toolA : Tool := { name := "a", packager := "pkg", releases := [relA1, relA2] }

/-- Tool b with a single installed release. -/
def toolB : Tool := { name := "b", packager := "pkg", releases := [relB1] }

/-- The platform release of the two-tool scenario: it pins tool a to version
1.0.0, while the default pass would pick 2.0.0. -/
def platRel1 : PlatformRelease :=
  { installed := true
    boards := [{ boardId := "uno" }]
    dependencies := [{ toolPackager := "pkg", toolName := "a", toolVersion := "1.0.0" }] }

/-- The package of the two-tool scenario. -/
def pkg1 : Package :=
  { name := "pkg"
    platforms := [{ architecture := "arch", releases := [platRel1] }]
    tools := [toolA, toolB] }

/-- Registry of the two-tool pinning scenario. -/
def pm1 : PackageManager := { packages := [pkg1], eventHandler := none }

/-- The resolved board of the two-tool pinning scenario. -/
def board1 : Board := { data := { boardId := "uno" }, platformRelease := platRel1 }

/-- An existing but not installed tool release. -/
def relU : ToolRelease :=
  { version := "1.0.0", installed := false, packager := "pkg", toolName := "t" }

/-- A tool with a single, uninstalled release. -/
def toolU : Tool := { name := "t", packager := "pkg", releases := [relU] }

/-- Registry whose only tool release exists but is not installed. -/
def pmU : PackageManager :=
  { packages :=
      [{ name := "pkg", platforms := [], tools := [toolU] }]
    eventHandler := none }

/-- Board whose platform pins the existing-but-uninstalled release. -/
def boardU : Board :=
  { data := { boardId := "uno" }
    platformRelease :=
      { installed := true, boards := [{ boardId := "uno" }]
        dependencies := [{ toolPackager := "pkg", toolName := "t", toolVersion := "1.0.0" }] } }

/-- Board whose platform pins a version absent from the registry. -/
def boardM : Board :=
  { data := { boardId := "uno" }
    platformRelease :=
      { installed := true, boards := [{ boardId := "uno" }]
        dependencies := [{ toolPackager := "pkg", toolName := "t", toolVersion := "9.9.9" }] } }

/-- A platform of architecture "arch" with no installed release. -/
def platNoInst : Platform :=
  { architecture := "arch"
    releases := [{ installed := false, boards := [{ boardId := "boardX" }], dependencies := [] }] }

/-- The package owning `platNoInst`. -/
def pkgNoInst : Package :=
  { name := "pkg", platforms := [platNoInst], tools := [] }

/-- A registry whose platform of architecture "arch" has no installed
release. -/
def pmNoInst : PackageManager :=
  { packages := [pkgNoInst], eventHandler := none }

/-- An installed platform release owning no board named "boardX". -/
def relNoBoard : PlatformRelease :=
  { installed := true, boards := [{ boardId := "other" }], dependencies := [] }

/-- A platform of architecture "arch" whose installed release is
`relNoBoard`. -/
def platNoBoard : Platform :=
  { architecture := "arch", releases := [relNoBoard] }

/-- The package owning `platNoBoard`. -/
def pkgNoBoard : Package :=
  { name := "pkg", platforms := [platNoBoard], tools := [] }

/-- A registry whose platform of architecture "arch" is installed but owns
no board named "boardX". -/
def pmNoBoard : PackageManager :=
  { packages := [pkgNoBoard], eventHandler := none }

/-- A registry with an event handler already registered. -/
def pmWithHandler : PackageManager :=
  { packages := [pkg1], eventHandler := some () }

/-- Registry for the chain claims: package p, tool t, release 1.0.0. -/
def relP : ToolRelease :=
  { version := "1.0.0", installed := true, packager := "p", toolName := "t" }

/-- The tool owning `relP`. -/
def toolP : Tool := { name := "t", packager := "p", releases := [relP] }

/-- The package owning `toolP`. -/
def pkgP : Package := { name := "p", platforms := [], tools := [toolP] }

/-- Registry containing exactly `pkgP`. -/
def pmP : PackageManager := { packages := [pkgP], eventHandler := none }

/-- A package handle carrying a latched error. -/
def pa0 : packageActions := { aPackage := none, forwardError := some "boom" }

/-- A tool handle carrying a latched error. -/
def ta0 : toolActions := { tool := none, forwardError := some "boom" }

/-- A release handle carrying a latched error. -/
def tr0 : toolReleaseActions := { release := none, forwardError := some "boom" }

/-- A valid tool handle whose tool has no installed release. -/
def taU : toolActions := { tool := some toolU, forwardError := none }

/-! ## Association-list lemmas (the Go map embedding) -/

theorem updAssoc_nil (k : String) (v : ToolRelease) :
    updAssoc [] k v = [(k, v)] := rfl

theorem updAssoc_cons (e : String × ToolRelease)
    (es : List (String × ToolRelease)) (k : String) (v : ToolRelease) :
    updAssoc (e :: es) k v =
      if e.1 == k then (k, v) :: es else e :: updAssoc es k v := rfl

theorem lookupA_nil (k : String) : lookupA [] k = none := rfl

theorem lookupA_cons (e : String × ToolRelease)
    (es : List (String × ToolRelease)) (k : String) :
    lookupA (e :: es) k = if e.1 == k then some e.2 else lookupA es k := by
  cases hb : e.1 == k <;> simp [lookupA, List.find?, hb]

theorem lookupA_updAssoc_self (m : List (String × ToolRelease)) (k : String)
    (v : ToolRelease) : lookupA (updAssoc m k v) k = some v := by
  induction m with
  | nil => simp [updAssoc_nil, lookupA_cons, lookupA_nil]
  | cons e es ih =>
    cases hb : e.1 == k with
    | true => simp [updAssoc_cons, hb, lookupA_cons]
    | false => simp [updAssoc_cons, hb, lookupA_cons, ih]

theorem lookupA_updAssoc_ne (m : List (String × ToolRelease))
    (k k2 : String) (v : ToolRelease) (h : k2 ≠ k) :
    lookupA (updAssoc m k v) k2 = lookupA m k2 := by
  have hkk2 : (k == k2) = false := beq_eq_false_iff_ne.mpr (Ne.symm h)
  induction m with
  | nil => simp [updAssoc_nil, lookupA_cons, lookupA_nil, hkk2]
  | cons e es ih =>
    cases hb : e.1 == k with
    | true =>
      have he : e.1 = k := beq_iff_eq.mp hb
      have hb2 : (e.1 == k2) = false := he ▸ hkk2
      simp [updAssoc_cons, hb, lookupA_cons, hb2, hkk2]
    | false =>
      cases hb2 : e.1 == k2 with
      | true => simp [updAssoc_cons, hb, lookupA_cons, hb2]
      | false => simp [updAssoc_cons, hb, lookupA_cons, hb2, ih]

theorem mem_updAssoc (m : List (String × ToolRelease)) (k : String)
    (v : ToolRelease) (e : String × ToolRelease) (he : e ∈ updAssoc m k v) :
    e = (k, v) ∨ e ∈ m := by
  induction m with
  | nil => simpa [updAssoc] using he
  | cons e2 es ih =>
    by_cases h : e2.1 = k
    · have hb : (e2.1 == k) = true := beq_iff_eq.mpr h
      simp only [updAssoc, hb, if_true, List.mem_cons] at he
      rcases he with h1 | h1
      · exact Or.inl h1
      · exact Or.inr (List.mem_cons_of_mem _ h1)
    · have hb : (e2.1 == k) = false := beq_eq_false_iff_ne.mpr h
      simp only [updAssoc, hb, Bool.false_eq_true, if_false,
        List.mem_cons] at he
      rcases he with h1 | h1
      · exact Or.inr (by simp [h1])
      · rcases ih h1 with h2 | h2
        · exact Or.inl h2
        · exact Or.inr (List.mem_cons_of_mem _ h2)

theorem keys_updAssoc_sub (m : List (String × ToolRelease)) (k k2 : String)
    (v : ToolRelease) (h : k2 ∈ (updAssoc m k v).map Prod.fst) :
    k2 = k ∨ k2 ∈ m.map Prod.fst := by
  rcases List.mem_map.mp h with ⟨e, he, hk⟩
  rcases mem_updAssoc m k v e he with h1 | h1
  · left; rw [← hk, h1]
  · right; exact hk ▸ List.mem_map_of_mem Prod.fst h1

theorem keysNodup_updAssoc (m : List (String × ToolRelease)) (k : String)
    (v : ToolRelease) (h : (m.map Prod.fst).Nodup) :
    ((updAssoc m k v).map Prod.fst).Nodup := by
  induction m with
  | nil => simp [updAssoc]
  | cons e es ih =>
    by_cases he : e.1 = k
    · have hb : (e.1 == k) = true := beq_iff_eq.mpr he
      simp only [updAssoc, hb, if_true, List.map_cons, List.nodup_cons] at h ⊢
      exact ⟨by rw [← he]; exact h.1, h.2⟩
    · have hb : (e.1 == k) = false := beq_eq_false_iff_ne.mpr he
      simp only [updAssoc, hb, Bool.false_eq_true, if_false, List.map_cons,
        List.nodup_cons] at h ⊢
      refine ⟨fun hc => ?_, ih h.2⟩
      rcases keys_updAssoc_sub es k e.1 v hc with h1 | h1
      · exact he h1
      · exact h.1 h1

theorem lookupA_mem_values (m : List (String × ToolRelease)) (k : String)
    (v : ToolRelease) (h : lookupA m k = some v) : v ∈ m.map Prod.snd := by
  unfold lookupA at h
  rcases hf : m.find? (fun e => e.1 == k) with _ | e
  · rw [hf] at h; exact absurd h (by simp)
  · rw [hf] at h
    rw [Option.map_some'] at h
    injection h with h
    exact h ▸ List.mem_map_of_mem Prod.snd (List.mem_of_find?_eq_some hf)

theorem lookupA_of_mem_nodup (m : List (String × ToolRelease)) (k : String)
    (v : ToolRelease) (hm : (k, v) ∈ m) (hnd : (m.map Prod.fst).Nodup) :
    lookupA m k = some v := by
  induction m with
  | nil => simp at hm
  | cons e es ih =>
    simp only [List.map_cons, List.nodup_cons] at hnd
    rcases List.mem_cons.mp hm with h1 | h1
    · simp [lookupA, ← h1]
    · have hke : e.1 ≠ k := by
        intro hc
        exact hnd.1 (hc ▸ List.mem_map_of_mem Prod.fst h1)
      have hb : (e.1 == k) = false := beq_eq_false_iff_ne.mpr hke
      simpa [lookupA, hb] using ih h1 hnd.2

/-! ## Lemmas about the FQBN search loops -/

theorem searchPlatforms_skip (arch bid : String) (ppre ps : List Platform)
    (h : ∀ r ∈ ppre, r.architecture ≠ arch) :
    searchPlatforms arch bid (ppre ++ ps) = searchPlatforms arch bid ps := by
  induction ppre with
  | nil => rfl
  | cons p rest ih =>
    have hb : (p.architecture == arch) = false :=
      beq_eq_false_iff_ne.mpr (h p (List.mem_cons_self p rest))
    simp only [List.cons_append, searchPlatforms, hb, Bool.false_eq_true,
      if_false]
    exact ih (fun r hr => h r (List.mem_cons_of_mem p hr))

theorem searchPackages_skip (n arch bid : String) (pre pkgs : List Package)
    (h : ∀ q ∈ pre, q.name ≠ n) :
    searchPackages n arch bid (pre ++ pkgs) = searchPackages n arch bid pkgs := by
  induction pre with
  | nil => rfl
  | cons p rest ih =>
    have hb : (p.name == n) = false :=
      beq_eq_false_iff_ne.mpr (h p (List.mem_cons_self p rest))
    simp only [List.cons_append, searchPackages, hb, Bool.false_eq_true,
      if_false]
    exact ih (fun q hq => h q (List.mem_cons_of_mem p hq))

theorem searchPlatforms_outcomes (arch bid : String) (ps : List Platform) :
    searchPlatforms arch bid ps = none
    ∨ searchPlatforms arch bid ps = some (Except.error "platform not installed")
    ∨ ∃ b, searchPlatforms arch bid ps = some (Except.ok b) := by
  induction ps with
  | nil => exact Or.inl rfl
  | cons p rest ih =>
    cases hb : p.architecture == arch with
    | false => simpa [searchPlatforms, hb] using ih
    | true =>
      rcases hi : p.GetInstalled with _ | rel
      · exact Or.inr (Or.inl (by simp [searchPlatforms, hb, hi]))
      · rcases hf : rel.boards.find? (fun b => b.boardId == bid) with _ | b
        · simpa [searchPlatforms, hb, hi, hf] using ih
        · exact Or.inr (Or.inr ⟨{ data := b, platformRelease := rel },
            by simp [searchPlatforms, hb, hi, hf]⟩)

theorem searchPackages_outcomes (n arch bid : String) (pkgs : List Package) :
    searchPackages n arch bid pkgs = none
    ∨ searchPackages n arch bid pkgs = some (Except.error "platform not installed")
    ∨ ∃ b, searchPackages n arch bid pkgs = some (Except.ok b) := by
  induction pkgs with
  | nil => exact Or.inl rfl
  | cons p rest ih =>
    cases hb : p.name == n with
    | false => simpa [searchPackages, hb] using ih
    | true =>
      rcases searchPlatforms_outcomes arch bid p.platforms with h | h | ⟨b, h⟩
      · simpa [searchPackages, hb, h] using ih
      · exact Or.inr (Or.inl (by simp [searchPackages, hb, h]))
      · exact Or.inr (Or.inr ⟨b, by simp [searchPackages, hb, h]⟩)

/-! ## Lemmas about the default pass of the dependency resolver -/

theorem defaultToolsMap_eq_foldTools (pm : PackageManager) :
    defaultToolsMap pm = (allTools pm).foldl addToolRelease [] := by
  suffices h : ∀ (pkgs : List Package) (m : List (String × ToolRelease)),
      pkgs.foldl (fun m targetPackage => targetPackage.tools.foldl addToolRelease m) m
        = (pkgs.foldr (fun p acc => p.tools ++ acc) []).foldl addToolRelease m by
    exact h pm.packages []
  intro pkgs
  induction pkgs with
  | nil => intro m; rfl
  | cons p rest ih =>
    intro m
    simp only [List.foldl_cons, List.foldr_cons, List.foldl_append]
    exact ih (p.tools.foldl addToolRelease m)

theorem lookupA_foldTools_frozen (ts : List Tool)
    (m : List (String × ToolRelease)) (k : String) (v : ToolRelease)
    (hv : lookupA m k = some v)
    (hag : ∀ t ∈ ts, ∀ r, t.GetLatestInstalled = some r →
      r.idString = k → r = v) :
    lookupA (ts.foldl addToolRelease m) k = some v := by
  induction ts generalizing m with
  | nil => exact hv
  | cons t rest ih =>
    simp only [List.foldl_cons]
    refine ih (addToolRelease m t) ?_
      (fun t2 ht2 => hag t2 (List.mem_cons_of_mem t ht2))
    rcases hl : t.GetLatestInstalled with _ | rel
    · simpa only [addToolRelease, hl] using hv
    · simp only [addToolRelease, hl]
      by_cases hk : rel.idString = k
      · have hrv : rel = v := hag t (List.mem_cons_self t rest) rel hl hk
        subst hk
        rw [hrv]
        exact lookupA_updAssoc_self m v.idString v
      · exact (lookupA_updAssoc_ne m rel.idString k rel (Ne.symm hk)).trans hv

theorem lookupA_foldTools_mem (ts : List Tool)
    (m : List (String × ToolRelease)) (t : Tool) (rel : ToolRelease)
    (ht : t ∈ ts) (hrel : t.GetLatestInstalled = some rel)
    (hag : ∀ t2 ∈ ts, ∀ r, t2.GetLatestInstalled = some r →
      r.idString = rel.idString → r = rel) :
    lookupA (ts.foldl addToolRelease m) rel.idString = some rel := by
  induction ts generalizing m with
  | nil => simp at ht
  | cons t2 rest ih =>
    simp only [List.foldl_cons]
    rcases List.mem_cons.mp ht with h1 | h1
    · refine lookupA_foldTools_frozen rest (addToolRelease m t2)
        rel.idString rel ?_
        (fun t3 ht3 => hag t3 (List.mem_cons_of_mem t2 ht3))
      unfold addToolRelease
      rw [← h1, hrel]
      exact lookupA_updAssoc_self m rel.idString rel
    · exact ih (addToolRelease m t2) h1
        (fun t3 ht3 => hag t3 (List.mem_cons_of_mem t2 ht3))

theorem entries_foldTools (ts : List Tool) (m : List (String × ToolRelease))
    (hm : ∀ e ∈ m, e.1 = e.2.idString) :
    ∀ e ∈ ts.foldl addToolRelease m, e.1 = e.2.idString := by
  induction ts generalizing m with
  | nil => exact hm
  | cons t rest ih =>
    simp only [List.foldl_cons]
    refine ih (addToolRelease m t) ?_
    unfold addToolRelease
    rcases t.GetLatestInstalled with _ | rel
    · exact hm
    · intro e he
      rcases mem_updAssoc m rel.idString rel e he with h1 | h1
      · rw [h1]
      · exact hm e h1

theorem keysNodup_foldTools (ts : List Tool)
    (m : List (String × ToolRelease)) (hm : (m.map Prod.fst).Nodup) :
    ((ts.foldl addToolRelease m).map Prod.fst).Nodup := by
  induction ts generalizing m with
  | nil => exact hm
  | cons t rest ih =>
    simp only [List.foldl_cons]
    refine ih (addToolRelease m t) ?_
    unfold addToolRelease
    rcases t.GetLatestInstalled with _ | rel
    · exact hm
    · exact keysNodup_updAssoc m rel.idString rel hm

/-! ## Lemmas about the overlay pass of the dependency resolver -/

theorem resolveDependencies_nil (pm : PackageManager)
    (m : List (String × ToolRelease)) :
    resolveDependencies pm [] m = Except.ok m := rfl

theorem resolveDependencies_single (pm : PackageManager) (d : ToolDependency)
    (rel : ToolRelease) (m : List (String × ToolRelease))
    (h : pm.FindToolDependency d = some rel) :
    resolveDependencies pm [d] m = Except.ok (updAssoc m rel.idString rel) := by
  simp [resolveDependencies, h]

theorem resolveDependencies_firstFailure (pm : PackageManager)
    (ds1 : List ToolDependency) (d : ToolDependency)
    (ds2 : List ToolDependency) (m : List (String × ToolRelease))
    (hok : ∀ d2 ∈ ds1, (pm.FindToolDependency d2).isSome = true)
    (hfail : pm.FindToolDependency d = none) :
    resolveDependencies pm (ds1 ++ d :: ds2) m
      = Except.error ("tool release not found: " ++ d.toStr) := by
  induction ds1 generalizing m with
  | nil => simp [resolveDependencies, hfail]
  | cons d2 rest ih =>
    rcases hr : pm.FindToolDependency d2 with _ | rel
    · exact absurd (hr ▸ hok d2 (List.mem_cons_self d2 rest)) (by simp)
    · simp only [List.cons_append, resolveDependencies, hr]
      exact ih _ (fun d3 hd3 => hok d3 (List.mem_cons_of_mem d2 hd3))

theorem resolveDependencies_entries (pm : PackageManager)
    (ds : List ToolDependency) (m m2 : List (String × ToolRelease))
    (h : resolveDependencies pm ds m = Except.ok m2)
    (hm : ∀ e ∈ m, e.1 = e.2.idString) :
    ∀ e ∈ m2, e.1 = e.2.idString := by
  induction ds generalizing m with
  | nil =>
    rw [resolveDependencies_nil] at h
    injection h with h
    exact h ▸ hm
  | cons d rest ih =>
    rcases hr : pm.FindToolDependency d with _ | rel
    · rw [resolveDependencies, hr] at h; exact absurd h (by simp)
    · rw [resolveDependencies, hr] at h
      refine ih (updAssoc m rel.idString rel) h ?_
      intro e he
      rcases mem_updAssoc m rel.idString rel e he with h1 | h1
      · rw [h1]
      · exact hm e h1

theorem resolveDependencies_keysNodup (pm : PackageManager)
    (ds : List ToolDependency) (m m2 : List (String × ToolRelease))
    (h : resolveDependencies pm ds m = Except.ok m2)
    (hm : (m.map Prod.fst).Nodup) : (m2.map Prod.fst).Nodup := by
  induction ds generalizing m with
  | nil =>
    rw [resolveDependencies_nil] at h
    injection h with h
    exact h ▸ hm
  | cons d rest ih =>
    rcases hr : pm.FindToolDependency d with _ | rel
    · rw [resolveDependencies, hr] at h; exact absurd h (by simp)
    · rw [resolveDependencies, hr] at h
      exact ih (updAssoc m rel.idString rel) h
        (keysNodup_updAssoc m rel.idString rel hm)

/-! ## Claim theorems -/

/-- C3 counterexample: on a well-formed 3-segment FQBN whose packager names
no package — the registry is empty, and also on a registry that does contain
a (differently named) package — `FindBoardWithFQBN` returns the generic
"board not found" error, not a distinct error naming the missing package. -/
theorem C3_cex :
    NewPackageManager.FindBoardWithFQBN "ghost:avr:uno"
      = Except.error "board not found"
    ∧ pmP.FindBoardWithFQBN "ghost:avr:uno"
      = Except.error "board not found" :=
  ⟨rfl, rfl⟩

/-- C3 (amended): for every well-formed FQBN (3 or 4 segments) whose
packager names no package of the registry, `FindBoardWithFQBN` fails with
the generic "board not found" error — the same error used when the board is
absent; there is no distinct package-not-found error. -/
theorem C3_unknown_package_board_not_found (pm : PackageManager)
    (fqbn : String)
    (hlen : (splitColon fqbn).length = 3 ∨ (splitColon fqbn).length = 4)
    (hnone : ∀ p ∈ pm.packages, p.name ≠ (splitColon fqbn).getD 0 "") :
    pm.FindBoardWithFQBN fqbn = Except.error "board not found" := by
  have hguard : ¬((splitColon fqbn).length < 3 ∨ (splitColon fqbn).length > 4) := by
    rcases hlen with h | h <;> omega
  unfold PackageManager.FindBoardWithFQBN
  rw [if_neg hguard]
  have hpk : pm.packages = pm.packages ++ [] := (List.append_nil _).symm
  rw [hpk, searchPackages_skip _ _ _ pm.packages [] hnone]
  rfl

/-- C3 witness: a registry holding package "p", looked up with packager
"ghost". -/
theorem C3_unknown_package_board_not_found_witness :
    pmP.FindBoardWithFQBN "ghost:avr:uno" = Except.error "board not found" :=
  C3_unknown_package_board_not_found pmP "ghost:avr:uno" (Or.inl rfl)
    (by intro p hp; fin_cases hp; decide)

/-- C4 counterexample: "::" splits into 3 segments, all of them empty, yet
`FindBoardWithFQBN` does not fail with "incorrect format for fqbn" — it
proceeds to lookup and fails with "board not found". -/
theorem C4_cex :
    NewPackageManager.FindBoardWithFQBN "::" = Except.error "board not found"
    ∧ (splitColon "::").length = 3
    ∧ "" ∈ splitColon "::" :=
  ⟨rfl, rfl, by decide⟩

/-- C4 (amended): `FindBoardWithFQBN` fails with "incorrect format for fqbn"
exactly when the colon-split of the input does not have 3 or 4 segments;
segment emptiness is not checked, and 3- and 4-segment strings (empty
segments included) proceed to lookup. -/
theorem C4_format_error_iff_bad_segment_count (pm : PackageManager)
    (fqbn : String) :
    pm.FindBoardWithFQBN fqbn = Except.error "incorrect format for fqbn"
      ↔ ((splitColon fqbn).length < 3 ∨ (splitColon fqbn).length > 4) := by
  constructor
  · intro heq
    by_contra hg
    unfold PackageManager.FindBoardWithFQBN at heq
    rw [if_neg hg] at heq
    rcases searchPackages_outcomes ((splitColon fqbn).getD 0 "")
        ((splitColon fqbn).getD 1 "") ((splitColon fqbn).getD 2 "")
        pm.packages with h | h | ⟨b, h⟩ <;> rw [h] at heq
    · injection heq with heq
      exact absurd heq (by decide)
    · injection heq with heq
      exact absurd heq (by decide)
    · exact Except.noConfusion heq
  · intro hg
    unfold PackageManager.FindBoardWithFQBN
    rw [if_pos hg]

/-- C4 witness: a 2-segment string fails with the format error; a 3-segment
string does not. -/
theorem C4_format_error_iff_bad_segment_count_witness :
    NewPackageManager.FindBoardWithFQBN "a:b"
      = Except.error "incorrect format for fqbn"
    ∧ ¬(NewPackageManager.FindBoardWithFQBN "a:b:c"
      = Except.error "incorrect format for fqbn") :=
  ⟨(C4_format_error_iff_bad_segment_count NewPackageManager "a:b").mpr
      (by decide),
    fun h => by
      have h2 := (C4_format_error_iff_bad_segment_count
        NewPackageManager "a:b:c").mp h
      revert h2
      decide⟩

/-- C5 (confirmed): when the named package exists and its platform of the
requested architecture has no installed release, `FindBoardWithFQBN` fails
with "platform not installed"; when that platform is installed but owns no
board with the requested identifier (and no other platform or package
matches), it fails with the distinct "board not found" error. -/
theorem C5_platform_not_installed_distinct :
    (∀ (pm : PackageManager) (pre rest : List Package) (P : Package)
        (ppre prest : List Platform) (pl : Platform)
        (pkg arch bid fqbn : String),
      pm.packages = pre ++ P :: rest →
      (∀ q ∈ pre, q.name ≠ pkg) →
      P.name = pkg →
      P.platforms = ppre ++ pl :: prest →
      (∀ r ∈ ppre, r.architecture ≠ arch) →
      pl.architecture = arch →
      pl.GetInstalled = none →
      splitColon fqbn = [pkg, arch, bid] →
      pm.FindBoardWithFQBN fqbn = Except.error "platform not installed")
    ∧ (∀ (pm : PackageManager) (pre rest : List Package) (P : Package)
        (ppre prest : List Platform) (pl : Platform) (rel : PlatformRelease)
        (pkg arch bid fqbn : String),
      pm.packages = pre ++ P :: rest →
      (∀ q ∈ pre, q.name ≠ pkg) →
      (∀ q ∈ rest, q.name ≠ pkg) →
      P.name = pkg →
      P.platforms = ppre ++ pl :: prest →
      (∀ r ∈ ppre, r.architecture ≠ arch) →
      (∀ r ∈ prest, r.architecture ≠ arch) →
      pl.architecture = arch →
      pl.GetInstalled = some rel →
      (∀ b ∈ rel.boards, b.boardId ≠ bid) →
      splitColon fqbn = [pkg, arch, bid] →
      pm.FindBoardWithFQBN fqbn = Except.error "board not found") := by
  constructor
  · intro pm pre rest P ppre prest pl pkg arch bid fqbn
      hpkgs hpre hname hplats hppre harch hinst hsplit
    unfold PackageManager.FindBoardWithFQBN
    rw [hsplit]
    rw [if_neg (by simp)]
    simp only [List.getD_cons_zero, List.getD_cons_succ]
    rw [hpkgs, searchPackages_skip _ _ _ pre _ hpre]
    have hbn : (P.name == pkg) = true := beq_iff_eq.mpr hname
    simp only [searchPackages, hbn, if_true, List.getD]
    rw [hplats, searchPlatforms_skip _ _ ppre _ hppre]
    have hba : (pl.architecture == arch) = true := beq_iff_eq.mpr harch
    simp only [searchPlatforms, hba, if_true, hinst]
  · intro pm pre rest P ppre prest pl rel pkg arch bid fqbn
      hpkgs hpre hrest hname hplats hppre hprest harch hinst hbrd hsplit
    unfold PackageManager.FindBoardWithFQBN
    rw [hsplit]
    rw [if_neg (by simp)]
    simp only [List.getD_cons_zero, List.getD_cons_succ]
    rw [hpkgs, searchPackages_skip _ _ _ pre _ hpre]
    have hbn : (P.name == pkg) = true := beq_iff_eq.mpr hname
    simp only [searchPackages, hbn, if_true, List.getD]
    rw [hplats, searchPlatforms_skip _ _ ppre _ hppre]
    have hba : (pl.architecture == arch) = true := beq_iff_eq.mpr harch
    have hfind : rel.boards.find? (fun b => b.boardId == bid) = none :=
      List.find?_eq_none.mpr (fun b hb => by
        rw [beq_eq_false_iff_ne.mpr (hbrd b hb)]
        simp)
    simp only [searchPlatforms, hba, if_true, hinst, hfind]
    have hpr : prest = prest ++ [] := (List.append_nil _).symm
    rw [hpr, searchPlatforms_skip _ _ prest [] hprest]
    have hre : rest = rest ++ [] := (List.append_nil _).symm
    rw [hre, searchPackages_skip _ _ _ rest [] hrest]
    rfl

/-- C5 witness: the two three-segment lookups on the concrete registries,
one with an uninstalled platform, one with an installed platform lacking
the board. -/
theorem C5_platform_not_installed_distinct_witness :
    pmNoInst.FindBoardWithFQBN "pkg:arch:boardX"
      = Except.error "platform not installed"
    ∧ pmNoBoard.FindBoardWithFQBN "pkg:arch:boardX"
      = Except.error "board not found" :=
  ⟨C5_platform_not_installed_distinct.1 pmNoInst [] [] pkgNoInst [] []
      platNoInst "pkg" "arch" "boardX" "pkg:arch:boardX" rfl (by simp) rfl
      rfl (by simp) rfl rfl rfl,
    C5_platform_not_installed_distinct.2 pmNoBoard [] [] pkgNoBoard [] []
      platNoBoard relNoBoard "pkg" "arch" "boardX" "pkg:arch:boardX" rfl
      (by simp) (by simp) rfl rfl (by simp) (by simp) rfl rfl
      (by intro b hb; fin_cases hb; decide) rfl⟩

/-- C6 (confirmed): a handle that already carries an error propagates that
same error unchanged through every later stage (`Tool`, `Release`), the
terminal `Get` returns (nil, e), and `IsInstalled` returns (false, e); on a
valid tool handle whose tool has no installed release, `IsInstalled`
returns (false, nil). -/
theorem C6_chain_error_latching :
    (∀ (pa : packageActions) (e name : String), pa.forwardError = some e →
      (pa.Tool name).forwardError = some e ∧ (pa.Tool name).tool = none)
    ∧ (∀ (ta : toolActions) (e v : String), ta.forwardError = some e →
      (ta.Release v).forwardError = some e ∧ (ta.Release v).release = none)
    ∧ (∀ (ta : toolActions) (e : String), ta.forwardError = some e →
      ta.Get = (none, some e) ∧ ta.IsInstalled = (false, some e))
    ∧ (∀ (tr : toolReleaseActions) (e : String), tr.forwardError = some e →
      tr.Get = (none, some e))
    ∧ (∀ (ta : toolActions) (t : Tool), ta.forwardError = none →
      ta.tool = some t → (∀ r ∈ t.releases, r.installed = false) →
      ta.IsInstalled = (false, none)) := by
  refine ⟨?_, ?_, ?_, ?_, ?_⟩
  · intro pa e name he
    unfold packageActions.Tool
    rw [he]
    exact ⟨rfl, rfl⟩
  · intro ta e v he
    unfold toolActions.Release
    rw [he]
    exact ⟨rfl, rfl⟩
  · intro ta e he
    unfold toolActions.Get toolActions.IsInstalled
    rw [he]
    exact ⟨rfl, rfl⟩
  · intro tr e he
    unfold toolReleaseActions.Get
    rw [he]
  · intro ta t he ht hrel
    unfold toolActions.IsInstalled
    rw [he, ht]
    have hany : t.releases.any (fun r => r.installed) = false :=
      List.any_eq_false.mpr (fun r hr => by rw [hrel r hr]; simp)
    simp [hany]

/-- C6 witness: concrete latched-error handles and a concrete valid handle
with only an uninstalled release. -/
theorem C6_chain_error_latching_witness :
    (pa0.Tool "t").forwardError = some "boom"
    ∧ (ta0.Release "1.0.0").forwardError = some "boom"
    ∧ ta0.Get = (none, some "boom")
    ∧ ta0.IsInstalled = (false, some "boom")
    ∧ tr0.Get = (none, some "boom")
    ∧ taU.IsInstalled = (false, none) :=
  ⟨(C6_chain_error_latching.1 pa0 "boom" "t" rfl).1,
    (C6_chain_error_latching.2.1 ta0 "boom" "1.0.0" rfl).1,
    (C6_chain_error_latching.2.2.1 ta0 "boom" rfl).1,
    (C6_chain_error_latching.2.2.1 ta0 "boom" rfl).2,
    C6_chain_error_latching.2.2.2.1 tr0 "boom" rfl,
    C6_chain_error_latching.2.2.2.2 taU toolU rfl rfl (by decide)⟩

/-- C7 (confirmed): when the registry holds package P whose tool T has
release V, the chained `Package(P).Tool(T).Release(V).Get()` returns exactly
that release with nil error; `Package("missing")` latches an error whose
message contains "missing", which its terminal `Get` returns as
(nil, error).  (`packageActions.Get` is modelled from the spec, which gives
every handle a terminal `get()`; the source file defines none for package
handles.) -/
theorem C7_chain_success_and_missing :
    (∀ (pm : PackageManager) (P T V : String) (pk : Package) (tl : Tool)
        (rel : ToolRelease),
      pm.packages.find? (fun p => p.name == P) = some pk →
      pk.tools.find? (fun t => t.name == T) = some tl →
      tl.GetRelease V = some rel →
      (((pm.Package P).Tool T).Release V).Get = (some rel, none))
    ∧ (∀ pm : PackageManager,
      pm.packages.find? (fun p => p.name == "missing") = none →
      (pm.Package "missing").Get
        = (none, some (("package " ++ sq) ++ "missing" ++ (sq ++ " not found")))) := by
  constructor
  · intro pm P T V pk tl rel hp ht hr
    unfold PackageManager.Package
    rw [hp]
    unfold packageActions.Tool
    simp only
    rw [ht]
    unfold toolActions.Release
    simp only
    rw [hr]
    rfl
  · intro pm hp
    unfold PackageManager.Package
    rw [hp]
    unfold packageActions.Get
    simp only
    constructor

/-- C7 witness: the concrete registry `pmP` with package "p", tool "t",
release "1.0.0", and the missing-package lookup. -/
theorem C7_chain_success_and_missing_witness :
    (((pmP.Package "p").Tool "t").Release "1.0.0").Get = (some relP, none)
    ∧ (pmP.Package "missing").Get
      = (none, some (("package " ++ sq) ++ "missing" ++ (sq ++ " not found"))) :=
  ⟨C7_chain_success_and_missing.1 pmP "p" "t" "1.0.0" pkgP toolP relP rfl rfl rfl,
    C7_chain_success_and_missing.2 pmP rfl⟩

/-- C8 counterexample: registering a sink on a registry that already has one
panics (aborts) instead of returning a configuration error, and querying the
sinks of a freshly created registry yields a one-element list, not zero
sinks. -/
theorem C8_cex :
    pmWithHandler.RegisterEventHandler ()
      = RegisterResult.panicked
        ("Don" ++ sq ++ "t try to register another event handler to the PackageManager yet!")
    ∧ NewPackageManager.GetEventHandlers.length = 1 :=
  ⟨rfl, rfl⟩

/-- C8 (amended): registering a sink when one is already registered panics
(process abort) rather than returning an error; a first registration
succeeds and stores the sink; `GetEventHandlers` always returns a
one-element list holding the (possibly nil) sink slot, so it never reports
zero sinks. -/
theorem C8_register_panics_and_query :
    (∀ (pm : PackageManager) (h x : EventHandler), pm.eventHandler = some x →
      pm.RegisterEventHandler h
        = RegisterResult.panicked
          ("Don" ++ sq ++ "t try to register another event handler to the PackageManager yet!"))
    ∧ (∀ (pm : PackageManager) (h : EventHandler), pm.eventHandler = none →
      pm.RegisterEventHandler h
        = RegisterResult.ok { pm with eventHandler := some h })
    ∧ (∀ pm : PackageManager,
      pm.GetEventHandlers = [pm.eventHandler]
      ∧ pm.GetEventHandlers.length = 1) := by
  refine ⟨?_, ?_, ?_⟩
  · intro pm h x hx
    unfold PackageManager.RegisterEventHandler
    rw [hx]
  · intro pm h hx
    unfold PackageManager.RegisterEventHandler
    rw [hx]
  · intro pm
    exact ⟨rfl, rfl⟩

/-- C8 witness: the concrete second registration and a first registration on
a fresh registry. -/
theorem C8_register_panics_and_query_witness :
    pmWithHandler.RegisterEventHandler ()
      = RegisterResult.panicked
        ("Don" ++ sq ++ "t try to register another event handler to the PackageManager yet!")
    ∧ NewPackageManager.RegisterEventHandler ()
      = RegisterResult.ok { packages := NewPackages, eventHandler := some () }
    ∧ NewPackageManager.GetEventHandlers.length = 1 :=
  ⟨C8_register_panics_and_query.1 pmWithHandler () () rfl,
    C8_register_panics_and_query.2.1 NewPackageManager () rfl,
    (C8_register_panics_and_query.2.2 NewPackageManager).2⟩

/-- C9 counterexample: clearing a registry with a registered event handler
keeps the handler, so the cleared state differs from a newly created
manager. -/
theorem C9_cex :
    pmWithHandler.Clear.eventHandler = some ()
    ∧ NewPackageManager.eventHandler = none
    ∧ pmWithHandler.Clear ≠ NewPackageManager :=
  ⟨rfl, rfl, by decide⟩

/-- C9 (amended): `Clear` never fails and resets the package collection to
that of a newly created manager, but it retains the registered event sink
rather than resetting it. -/
theorem C9_clear_resets_packages_keeps_handler (pm : PackageManager) :
    pm.Clear.packages = NewPackageManager.packages
    ∧ pm.Clear.eventHandler = pm.eventHandler :=
  ⟨rfl, rfl⟩

/-- C2 counterexample: the only declared dependency names version "1.0.0"
of tool pkg:t, whose sole release exists but is NOT installed; yet
`FindToolsRequiredForBoard` succeeds and returns that uninstalled release
instead of failing. -/
theorem C2_cex :
    pmU.FindToolsRequiredForBoard boardU = Except.ok [relU]
    ∧ relU.installed = false
    ∧ boardU.platformRelease.dependencies
      = [{ toolPackager := "pkg", toolName := "t", toolVersion := "1.0.0" }]
    ∧ relU.version = "1.0.0" ∧ relU.packager = "pkg" ∧ relU.toolName = "t" :=
  ⟨rfl, rfl, rfl, rfl, rfl, rfl⟩

/-- C2 (amended): when a declared dependency cannot be resolved — its
packager, tool name, or exact version is absent from the registry
(installedness is not checked) — and every dependency declared before it
resolves, `FindToolsRequiredForBoard` fails as a whole with an error naming
that dependency, returning nil in place of any result list. -/
theorem C2_unresolved_dependency_fails (pm : PackageManager) (board : Board)
    (ds1 : List ToolDependency) (d : ToolDependency)
    (ds2 : List ToolDependency)
    (hdeps : board.platformRelease.dependencies = ds1 ++ d :: ds2)
    (hok : ∀ d2 ∈ ds1, (pm.FindToolDependency d2).isSome = true)
    (hfail : pm.FindToolDependency d = none) :
    pm.FindToolsRequiredForBoard board
      = Except.error ("tool release not found: " ++ d.toStr) := by
  unfold PackageManager.FindToolsRequiredForBoard
  rw [hdeps,
    resolveDependencies_firstFailure pm ds1 d ds2 (defaultToolsMap pm) hok hfail]

/-- C2 witness: the dependency pkg:t@9.9.9 names a version absent from the
registry; resolution fails naming it. -/
theorem C2_unresolved_dependency_fails_witness :
    pmU.FindToolsRequiredForBoard boardM
      = Except.error ("tool release not found: "
        ++ ToolDependency.toStr
          { toolPackager := "pkg", toolName := "t", toolVersion := "9.9.9" }) :=
  C2_unresolved_dependency_fails pmU boardM []
    { toolPackager := "pkg", toolName := "t", toolVersion := "9.9.9" } []
    rfl (by simp) rfl

/-- C1 (confirmed): in the two-tool scenario — tools a and b whose latest
installed releases are `relA` and `relB` (unique holders of their
"packager:tool" identities among all default selections), the platform
declaring exactly one dependency that the chain resolves to `pin`, with
`pin` carrying the identity of a and b carrying a different identity — the
step-1 default map selects `relA` for a, the call succeeds, the result
contains the pinned release of a and the default release of b, and the default release of a is gone whenever it differs from
the pin (explicit pinning replaces the same-identity default). -/
theorem C1_explicit_pin_overrides_default
    (pm : PackageManager) (board : Board) (a b : Tool)
    (relA relB pin : ToolRelease) (dA : ToolDependency)
    (hdeps : board.platformRelease.dependencies = [dA])
    (hfind : pm.FindToolDependency dA = some pin)
    (ha : a ∈ allTools pm) (hla : a.GetLatestInstalled = some relA)
    (hb : b ∈ allTools pm) (hlb : b.GetLatestInstalled = some relB)
    (hagA : ∀ t ∈ allTools pm, ∀ r, t.GetLatestInstalled = some r →
      r.idString = relA.idString → r = relA)
    (hagB : ∀ t ∈ allTools pm, ∀ r, t.GetLatestInstalled = some r →
      r.idString = relB.idString → r = relB)
    (hpin : pin.idString = relA.idString)
    (hne : relB.idString ≠ relA.idString) :
    lookupA (defaultToolsMap pm) relA.idString = some relA
    ∧ exceptOk (pm.FindToolsRequiredForBoard board) = true
    ∧ pin ∈ okList (pm.FindToolsRequiredForBoard board)
    ∧ relB ∈ okList (pm.FindToolsRequiredForBoard board)
    ∧ (relA ≠ pin → relA ∉ okList (pm.FindToolsRequiredForBoard board)) := by
  have hres : pm.FindToolsRequiredForBoard board
      = Except.ok ((updAssoc (defaultToolsMap pm) pin.idString pin).map
        Prod.snd) := by
    unfold PackageManager.FindToolsRequiredForBoard
    rw [hdeps, resolveDependencies_single pm dA pin (defaultToolsMap pm) hfind]
  have hlookupPin :
      lookupA (updAssoc (defaultToolsMap pm) pin.idString pin) pin.idString
        = some pin :=
    lookupA_updAssoc_self (defaultToolsMap pm) pin.idString pin
  have hlookupB :
      lookupA (updAssoc (defaultToolsMap pm) pin.idString pin) relB.idString
        = some relB := by
    rw [lookupA_updAssoc_ne (defaultToolsMap pm) pin.idString relB.idString
      pin (by rw [hpin]; exact hne)]
    rw [defaultToolsMap_eq_foldTools]
    exact lookupA_foldTools_mem (allTools pm) [] b relB hb hlb hagB
  refine ⟨?_, ?_, ?_, ?_, ?_⟩
  · rw [defaultToolsMap_eq_foldTools]
    exact lookupA_foldTools_mem (allTools pm) [] a relA ha hla hagA
  · rw [hres]; rfl
  · rw [hres]
    exact lookupA_mem_values _ pin.idString pin hlookupPin
  · rw [hres]
    exact lookupA_mem_values _ relB.idString relB hlookupB
  · intro hne2 hmem
    rw [hres] at hmem
    have hmem2 : relA ∈ (updAssoc (defaultToolsMap pm) pin.idString pin).map
        Prod.snd := hmem
    have hinv : ∀ e ∈ updAssoc (defaultToolsMap pm) pin.idString pin,
        e.1 = e.2.idString := by
      intro e he
      rcases mem_updAssoc (defaultToolsMap pm) pin.idString pin e he
        with h1 | h1
      · rw [h1]
      · refine entries_foldTools (allTools pm) [] (by simp) e ?_
        rw [← defaultToolsMap_eq_foldTools]
        exact h1
    have hnd : ((updAssoc (defaultToolsMap pm) pin.idString pin).map
        Prod.fst).Nodup := by
      refine keysNodup_updAssoc _ _ _ ?_
      rw [defaultToolsMap_eq_foldTools]
      exact keysNodup_foldTools (allTools pm) [] (by simp)
    rcases List.mem_map.mp hmem2 with ⟨e, he, hsnd⟩
    have hkey : e.1 = relA.idString := by rw [hinv e he, hsnd]
    have hlk : lookupA (updAssoc (defaultToolsMap pm) pin.idString pin)
        relA.idString = some relA := by
      refine lookupA_of_mem_nodup _ relA.idString relA ?_ hnd
      have he2 : e = (relA.idString, relA) := by
        rcases e with ⟨e1, e2⟩
        simp only at hkey hsnd
        rw [hkey, hsnd]
      rw [← he2]
      exact he
    rw [← hpin] at hlk
    rw [hlookupPin] at hlk
    injection hlk with hlk
    exact hne2 hlk.symm

/-- C1 witness: package "pkg" with tool a (installed releases 1.0.0 and
2.0.0, default 2.0.0) and tool b (installed release 1.0.0); the platform
pins a to 1.0.0; the result holds a@1.0.0 and b@1.0.0, and a@2.0.0 is
gone. -/
theorem C1_explicit_pin_overrides_default_witness :
    lookupA (defaultToolsMap pm1) relA2.idString = some relA2
    ∧ exceptOk (pm1.FindToolsRequiredForBoard board1) = true
    ∧ relA1 ∈ okList (pm1.FindToolsRequiredForBoard board1)
    ∧ relB1 ∈ okList (pm1.FindToolsRequiredForBoard board1)
    ∧ relA2 ∉ okList (pm1.FindToolsRequiredForBoard board1) := by
  have hagA : ∀ t ∈ allTools pm1, ∀ r, t.GetLatestInstalled = some r →
      r.idString = relA2.idString → r = relA2 := by
    intro t ht r hr hid
    have hall : allTools pm1 = [toolA, toolB] := rfl
    rw [hall] at ht
    rcases List.mem_cons.mp ht with h2 | h2
    · subst h2
      rw [show toolA.GetLatestInstalled = some relA2 from rfl] at hr
      injection hr with h3
      exact h3.symm
    · have h2b : t = toolB := by simpa using h2
      subst h2b
      rw [show toolB.GetLatestInstalled = some relB1 from rfl] at hr
      injection hr with h3
      rw [← h3] at hid
      exact absurd hid (by decide)
  have hagB : ∀ t ∈ allTools pm1, ∀ r, t.GetLatestInstalled = some r →
      r.idString = relB1.idString → r = relB1 := by
    intro t ht r hr hid
    have hall : allTools pm1 = [toolA, toolB] := rfl
    rw [hall] at ht
    rcases List.mem_cons.mp ht with h2 | h2
    · subst h2
      rw [show toolA.GetLatestInstalled = some relA2 from rfl] at hr
      injection hr with h3
      rw [← h3] at hid
      exact absurd hid (by decide)
    · have h2b : t = toolB := by simpa using h2
      subst h2b
      rw [show toolB.GetLatestInstalled = some relB1 from rfl] at hr
      injection hr with h3
      exact h3.symm
  have h := C1_explicit_pin_overrides_default pm1 board1 toolA toolB relA2
    relB1 relA1
    { toolPackager := "pkg", toolName := "a", toolVersion := "1.0.0" }
    rfl rfl (by decide) rfl (by decide) rfl hagA hagB rfl (by decide)
  exact ⟨h.1, h.2.1, h.2.2.1, h.2.2.2.1, h.2.2.2.2 (by decide)⟩

/-- C10 (confirmed): whenever `FindToolsRequiredForBoard` succeeds, no two
elements of the returned list belong to the same tool of the same package:
the result holds at most one release per "packager:tool" identity. -/
theorem C10_result_unique_per_tool_identity (pm : PackageManager)
    (board : Board) (res : List ToolRelease)
    (h : pm.FindToolsRequiredForBoard board = Except.ok res) :
    res.Pairwise
      (fun r s => ¬(r.packager = s.packager ∧ r.toolName = s.toolName)) := by
  unfold PackageManager.FindToolsRequiredForBoard at h
  rcases hr : resolveDependencies pm board.platformRelease.dependencies
      (defaultToolsMap pm) with e | m2
  · rw [hr] at h
    exact absurd h (by simp)
  · rw [hr] at h
    injection h with h
    subst h
    have hinv : ∀ e ∈ m2, e.1 = e.2.idString :=
      resolveDependencies_entries pm board.platformRelease.dependencies
        (defaultToolsMap pm) m2 hr (by
          rw [defaultToolsMap_eq_foldTools]
          exact entries_foldTools (allTools pm) [] (by simp))
    have hnd : (m2.map Prod.fst).Nodup :=
      resolveDependencies_keysNodup pm board.platformRelease.dependencies
        (defaultToolsMap pm) m2 hr (by
          rw [defaultToolsMap_eq_foldTools]
          exact keysNodup_foldTools (allTools pm) [] (by simp))
    have hpw : m2.Pairwise (fun e1 e2 => e1.1 ≠ e2.1) :=
      List.pairwise_map.mp hnd
    have hpw2 : m2.Pairwise (fun e1 e2 => e1.2.idString ≠ e2.2.idString) := by
      refine hpw.imp_of_mem ?_
      intro e1 e2 h1 h2 hne
      rw [← hinv e1 h1, ← hinv e2 h2]
      exact hne
    have hpw3 : (m2.map Prod.snd).Pairwise
        (fun r s => r.idString ≠ s.idString) := List.pairwise_map.mpr hpw2
    refine hpw3.imp ?_
    intro r s hns hc
    refine hns ?_
    unfold ToolRelease.idString
    rw [hc.1, hc.2]

/-- C10 witness: the two-tool pinning scenario yields a result list whose
elements carry pairwise distinct tool identities. -/
theorem C10_result_unique_per_tool_identity_witness :
    (okList (pm1.FindToolsRequiredForBoard board1)).Pairwise
      (fun r s => ¬(r.packager = s.packager ∧ r.toolName = s.toolName)) :=
  C10_result_unique_per_tool_identity pm1 board1
    (okList (pm1.FindToolsRequiredForBoard board1)) rfl

end PkgMgr
